import Mathlib

/-!
Verification of the leaf-level matching/generation engine of netzob
(`Data.py`, class `Data`): the backtracking matcher (`domainCMP`, `learn`),
the exact matcher (`valueCMP`), the generator forms (`use`, `regenerate`,
`regenerateAndMemorize`) and the definedness query (`isDefined`), embedded
shallowly over bit sequences.

The Binding Store ("memory") holds at most one value per field; all claims
concern a single field, so the store is modelled as an optional bit
sequence for that field, threaded explicitly through the stateful
operations.  `ParsingPath.duplicate` is external to the analyzed file; per
the documented contract, duplicates share the same store reference, so the
store is a single piece of state shared by all successor paths of one call.
-/

namespace Netzob

/-- A bit sequence (the content of a `bitarray`). -/
abbrev Bits := List Bool

/-- The Binding Store entry for the field: `none` when the store holds no
value for it (`hasValue` false), `some v` when `getValue` would return `v`. -/
abbrev Memory := Option Bits

/-- The `FieldType` collaborator: size bounds (`dataType.size`, the max may
be unbounded), the parseability test `canParse`, and the value generator
(modelled as the concrete value the generator returns on this call). -/
structure FieldType where
  minSize : Nat
  maxSize : Option Nat
  canParse : Bits → Bool
  generate : Bits

/-- The `Data` leaf variable: its optional fixed value (`currentValue`,
a.k.a. the known value) and its `dataType`. -/
structure DataVar where
  currentValue : Option Bits
  dataType : FieldType

/-- A Parsing Path as seen by this field: the residual content assigned to
the variable (`getDataAssignedToVariable`) and the result entry recorded
for this field (`addResult`). The attached store is threaded separately. -/
structure PPath where
  content : Bits
  result : Option Bits
  deriving DecidableEq, Repr

/-- A Specializing Path as seen by this field: the result entry recorded
for this field. -/
structure SPath where
  result : Option Bits
  deriving DecidableEq, Repr

/-- Embedding of `path.addResult(self, bits)` on a parsing path: record `v` as
this field's result. -/
def addResult (p : PPath) (v : Bits) : PPath :=
  { p with result := some v }

/-- Embedding of `path.addResult(self, bits)` on a specializing path. -/
def addResultS (p : SPath) (v : Bits) : SPath :=
  { p with result := some v }

/-- Python `xrange(hi, lo - 1, -1)`: the naturals from `hi` down to `lo`,
descending; empty when `hi < lo`. -/
def descRange (hi lo : Nat) : List Nat :=
  (List.range' lo (hi + 1 - lo)).reverse

/-- Embedding of `Data.domainCMP` (lines 348-385).  Structure of the source: clamp an
unbounded max to the content length, fail when the content is shorter than
the min, collapse both bounds to the content length when carnivorous, then
enumerate candidate sizes descending, keeping size 0 unconditionally and
other sizes when `canParse` accepts the prefix; each kept size yields a
duplicate of the path with the prefix recorded.  The store is untouched. -/
def domainCMP (d : DataVar) (p : PPath) (carnivorous : Bool) (mem : Memory) :
    List PPath × Memory :=
  let content := p.content
  let minSize := d.dataType.minSize
  let maxSize := d.dataType.maxSize.getD content.length
  if content.length < minSize then ([], mem)
  else
    let minSize2 := if carnivorous then content.length else minSize
    let maxSize2 := if carnivorous then content.length else maxSize
    ((descRange (min maxSize2 content.length) minSize2).filterMap fun size =>
      if size == 0 || d.dataType.canParse (content.take size) then
        some (addResult p (content.take size))
      else none, mem)

/-- The loop body of `Data.learn`: process candidate sizes in order; each
accepted size appends a successor recording the prefix and memorizes that
same prefix into the shared store before the next candidate is tried. -/
def learnLoop (d : DataVar) (p : PPath) (content : Bits) :
    List Nat → Memory → List PPath × Memory
  | [], mem => ([], mem)
  | size :: rest, mem =>
    if size == 0 || d.dataType.canParse (content.take size) then
      let out := learnLoop d p content rest (some (content.take size))
      (addResult p (content.take size) :: out.1, out.2)
    else
      learnLoop d p content rest mem

/-- Embedding of `Data.learn` (lines 417-451): same search as `domainCMP`, but every
accepted branch also writes the consumed prefix into the Binding Store. -/
def learn (d : DataVar) (p : PPath) (carnivorous : Bool) (mem : Memory) :
    List PPath × Memory :=
  let content := p.content
  let minSize := d.dataType.minSize
  let maxSize := d.dataType.maxSize.getD content.length
  if content.length < minSize then ([], mem)
  else
    let minSize2 := if carnivorous then content.length else minSize
    let maxSize2 := if carnivorous then content.length else maxSize
    learnLoop d p content (descRange (min maxSize2 content.length) minSize2) mem

/-- Embedding of `Data.valueCMP` (lines 387-415).  `memOpt` is the store attached to the
parsing path (`parsingPath.memory`), `none` when no store is attached.
The expected value starts as `currentValue` and is overridden by the store
value when the store has one; no resolvable value raises; otherwise the
content must be at least as long as the expected value and start with it. -/
def valueCMP (d : DataVar) (p : PPath) (memOpt : Option Memory) :
    Except String (List PPath) :=
  match memOpt with
  | none => .error "No memory available"
  | some mem =>
    let expectedValue :=
      match mem with
      | some v => some v
      | none => d.currentValue
    match expectedValue with
    | none => .error "Data has no value defined in its definition domain"
    | some ev =>
      let content := p.content
      if ev.length ≤ content.length ∧ content.take ev.length = ev then
        .ok [addResult p ev]
      else
        .ok []

/-- Embedding of `Data.isDefined` (lines 323-346).  The path is modelled by its store
attachment: outer `none` is a `None` path (raises); with a path given, a
present `currentValue` answers true before the store is even consulted; a
path with no store attached raises; otherwise the store is queried. -/
def isDefined (d : DataVar) (path : Option (Option Memory)) :
    Except String Bool :=
  match path with
  | none => .error "Path cannot be None"
  | some memOpt =>
    if d.currentValue.isSome then .ok true
    else
      match memOpt with
      | none => .error "Provided path has no memory attached."
      | some mem => .ok mem.isSome

/-- Embedding of `Data.use` (lines 453-473): emit the store value when present, else
`currentValue` when present, else no successor; the store is untouched and
the generator is never invoked. -/
def use (d : DataVar) (p : SPath) (mem : Memory) : List SPath × Memory :=
  match mem with
  | some v => ([addResultS p v], mem)
  | none =>
    match d.currentValue with
    | some cv => ([addResultS p cv], mem)
    | none => ([], mem)

/-- Embedding of `Data.regenerate` (lines 475-489): record a freshly generated value;
the store is untouched. -/
def regenerate (d : DataVar) (p : SPath) (mem : Memory) : List SPath × Memory :=
  let newValue := d.dataType.generate
  ([addResultS p newValue], mem)

/-- Embedding of `Data.regenerateAndMemorize` (lines 491-506): generate a fresh value,
memorize it into the store, and record it as the result. -/
def regenerateAndMemorize (d : DataVar) (p : SPath) (mem : Memory) :
    List SPath × Memory :=
  let newValue := d.dataType.generate
  ([addResultS p newValue], some newValue)

/-- Specification-side description of the backtracking search: the accepted
candidate lengths, enumerating `L` from `min(max, len c)` down to `min` in
descending order (an unbounded max clamped to `len c`), keeping `L = 0`
unconditionally and any other `L` exactly when `canParse` accepts the
prefix of that length. -/
def acceptedLengths (d : DataVar) (c : Bits) : List Nat :=
  (descRange (min (d.dataType.maxSize.getD c.length) c.length)
      d.dataType.minSize).filter
    fun L => L == 0 || d.dataType.canParse (c.take L)

/-- Specification-side description of the successor collection of the
Backtracking Matcher without the carnivorous flag: empty when the residual
is shorter than `min`, otherwise one successor per accepted length, each a
duplicate of the input path with the consumed prefix recorded as this
field's result. -/
def specSuccessors (d : DataVar) (p : PPath) : List PPath :=
  if p.content.length < d.dataType.minSize then []
  else (acceptedLengths d p.content).map fun L => addResult p (p.content.take L)

/-- Specification-side resolution of the expected value of the Exact
Matcher: the Binding Store entry when present (store takes priority),
otherwise the known value. -/
def resolvedExpected (d : DataVar) (mem : Memory) : Option Bits :=
  match mem with
  | some v => some v
  | none => d.currentValue

/-- One call of a Volatile-mode primitive acting on a shared store: a
`domainCMP` parse or a `regenerate` specialization. -/
inductive VolatileCall where
  | parse (d : DataVar) (p : PPath) (carnivorous : Bool)
  | specialize (d : DataVar) (p : SPath)

/-- Runs one Volatile-mode call against the shared store and keeps only the
resulting store state. -/
def runVolatile (mem : Memory) : VolatileCall → Memory
  | .parse d p c => (domainCMP d p c mem).2
  | .specialize d p => (regenerate d p mem).2

/-! Concrete fixtures used by counterexamples and witnesses. -/

/-- A field type accepting every bit sequence, with the given bounds. -/
def alwaysType (minS : Nat) (maxS : Option Nat) : FieldType :=
  { minSize := minS, maxSize := maxS, canParse := fun _ => true,
    generate := [false] }

/-- A data variable with no known value over `alwaysType`. -/
def freeData (minS : Nat) (maxS : Option Nat) : DataVar :=
  { currentValue := none, dataType := alwaysType minS maxS }

/-- A data variable with the known value `v` over an unconstrained type. -/
def fixedData (v : Bits) : DataVar :=
  { currentValue := some v, dataType := alwaysType 0 none }

/-- A parsing path carrying residual content `c` and no recorded result. -/
def pathOn (c : Bits) : PPath :=
  { content := c, result := none }

/-! General lemmas about the embedded operations. -/

theorem mem_descRange {n hi lo : Nat} : n ∈ descRange hi lo ↔ lo ≤ n ∧ n ≤ hi := by
  simp only [descRange, List.mem_reverse, List.mem_range'_1]
  omega

theorem filterMap_guard {α β : Type} (P : α → Bool) (f : α → β) (l : List α) :
    l.filterMap (fun a => if P a then some (f a) else none) = (l.filter P).map f := by
  induction l with
  | nil => rfl
  | cons a l ih =>
    by_cases h : P a <;> simp [List.filterMap_cons, List.filter_cons, h, ih]

theorem domainCMP_memory (d : DataVar) (p : PPath) (carnivorous : Bool)
    (mem : Memory) : (domainCMP d p carnivorous mem).2 = mem := by
  by_cases h : p.content.length < d.dataType.minSize <;> simp [domainCMP, h]

theorem domainCMP_results (d : DataVar) (p : PPath) (carnivorous : Bool)
    (mem : Memory) :
    (domainCMP d p carnivorous mem).1 =
      if p.content.length < d.dataType.minSize then []
      else
        (((descRange
            (min (if carnivorous then p.content.length
                  else d.dataType.maxSize.getD p.content.length) p.content.length)
            (if carnivorous then p.content.length else d.dataType.minSize)).filter
          fun size => size == 0 || d.dataType.canParse (p.content.take size)).map
          fun size => addResult p (p.content.take size)) := by
  unfold domainCMP
  by_cases h : p.content.length < d.dataType.minSize
  · simp [h]
  · rw [if_neg h, if_neg h]
    dsimp only
    rw [filterMap_guard
      (fun size => size == 0 || d.dataType.canParse (p.content.take size))
      (fun size => addResult p (p.content.take size))]

theorem learnLoop_results (d : DataVar) (p : PPath) (content : Bits)
    (sizes : List Nat) (mem : Memory) :
    (learnLoop d p content sizes mem).1 =
      ((sizes.filter fun size =>
          size == 0 || d.dataType.canParse (content.take size)).map
        fun size => addResult p (content.take size)) := by
  induction sizes generalizing mem with
  | nil => rfl
  | cons s rest ih =>
    by_cases h : (s == 0 || d.dataType.canParse (content.take s)) = true <;>
      simp [learnLoop, h, List.filter_cons, ih]

theorem learnLoop_memory (d : DataVar) (p : PPath) (content : Bits)
    (sizes : List Nat) (mem : Memory) :
    (learnLoop d p content sizes mem).2 =
      ((sizes.filter fun size =>
          size == 0 || d.dataType.canParse (content.take size)).map
        fun size => (some (content.take size) : Memory)).getLastD mem := by
  induction sizes generalizing mem with
  | nil => rfl
  | cons s rest ih =>
    by_cases h : (s == 0 || d.dataType.canParse (content.take s)) = true
    · rw [List.filter_cons_of_pos
          (p := fun size => size == 0 || d.dataType.canParse (content.take size)) h,
        List.map_cons, List.getLastD_cons, ← ih]
      simp only [learnLoop, if_pos h]
    · rw [List.filter_cons_of_neg
          (p := fun size => size == 0 || d.dataType.canParse (content.take size))
          (by simpa using h), ← ih]
      simp only [learnLoop, if_neg h]

theorem learn_results_eq (d : DataVar) (p : PPath) (carnivorous : Bool)
    (mem : Memory) :
    (learn d p carnivorous mem).1 = (domainCMP d p carnivorous mem).1 := by
  rw [domainCMP_results]
  by_cases h : p.content.length < d.dataType.minSize <;>
    simp [learn, h, learnLoop_results]

theorem startsWith_iff (c ev : Bits) :
    (ev.length ≤ c.length ∧ c.take ev.length = ev) ↔ ∃ rest, c = ev ++ rest := by
  constructor
  · rintro ⟨h1, h2⟩
    refine ⟨c.drop ev.length, ?_⟩
    conv_lhs => rw [← List.take_append_drop ev.length c]
    rw [h2]
  · rintro ⟨rest, rfl⟩
    constructor
    · simp
    · rw [List.take_left]

theorem valueCMP_resolved (d : DataVar) (p : PPath) (mem : Memory) :
    valueCMP d p (some mem) =
      match resolvedExpected d mem with
      | none => .error "Data has no value defined in its definition domain"
      | some ev =>
        if ev.length ≤ p.content.length ∧ p.content.take ev.length = ev then
          .ok [addResult p ev]
        else .ok [] := by
  cases mem <;> rfl

theorem resolvedExpected_none_iff (d : DataVar) (mem : Memory) :
    resolvedExpected d mem = none ↔ (mem = none ∧ d.currentValue = none) := by
  cases mem <;> simp [resolvedExpected]

/-! Claim theorems. -/

/-- C1: with the carnivorous flag unset, `domainCMP` returns the empty
successor collection when the residual is shorter than the minimum size,
and otherwise one successor per candidate length `L`, enumerated from
`min(max, len c)` down to `min` descending (an unbounded max clamped to
`len c`), accepted when `L = 0` or `canParse` accepts the prefix `c[:L]`,
each successor a duplicate of the input path with that prefix recorded. -/
theorem C1_domainCMP_follows_spec (d : DataVar) (p : PPath) (mem : Memory) :
    (domainCMP d p false mem).1 = specSuccessors d p := by
  rw [domainCMP_results, specSuccessors, acceptedLengths]
  simp

/-- C2: whenever an expected value is resolvable (store entry first, else
the known value), `valueCMP` returns exactly one successor recording the
expected value when the residual content begins with it bit-for-bit, and
the empty collection otherwise. -/
theorem C2_valueCMP_exact_match (d : DataVar) (p : PPath) (mem : Memory)
    (ev : Bits) (hev : resolvedExpected d mem = some ev) :
    ((∃ rest, p.content = ev ++ rest) →
        valueCMP d p (some mem) = .ok [addResult p ev])
  ∧ (¬ (∃ rest, p.content = ev ++ rest) →
        valueCMP d p (some mem) = .ok []) := by
  constructor
  · intro hpre
    have hc := (startsWith_iff p.content ev).2 hpre
    rw [valueCMP_resolved, hev]
    exact if_pos hc
  · intro hpre
    have hc : ¬ (ev.length ≤ p.content.length ∧ p.content.take ev.length = ev) :=
      fun hx => hpre ((startsWith_iff p.content ev).1 hx)
    rw [valueCMP_resolved, hev]
    exact if_neg hc

/-- C2 witness: a concrete matching call returns the single successor. -/
theorem C2_valueCMP_exact_match_witness :
    valueCMP (freeData 0 none) (pathOn [true, false]) (some (some [true])) =
      .ok [addResult (pathOn [true, false]) [true]] :=
  (C2_valueCMP_exact_match (freeData 0 none) (pathOn [true, false])
    (some [true]) [true] rfl).1 ⟨[false], rfl⟩

/-- C3: with a store attached, `valueCMP` raises (returns an error rather
than a successor collection) exactly when no expected value is resolvable,
i.e. when the store has no entry and the known value is absent; in every
other case, mismatches included, it returns an ordinary (possibly empty)
successor collection. -/
theorem C3_valueCMP_config_error (d : DataVar) (p : PPath) (mem : Memory) :
    (∃ e, valueCMP d p (some mem) = .error e) ↔
      (mem = none ∧ d.currentValue = none) := by
  rw [valueCMP_resolved, ← resolvedExpected_none_iff]
  cases hr : resolvedExpected d mem with
  | none => simp
  | some ev =>
    constructor
    · rintro ⟨e, he⟩
      dsimp only at he
      by_cases hc : (ev.length ≤ p.content.length ∧ p.content.take ev.length = ev)
      · rw [if_pos hc] at he
        cases he
      · rw [if_neg hc] at he
        cases he
    · intro h
      cases h

theorem mem_domainCMP {d : DataVar} {p : PPath} {carnivorous : Bool}
    {mem : Memory} {q : PPath} (hq : q ∈ (domainCMP d p carnivorous mem).1) :
    ∃ size, size ≤ min (if carnivorous then p.content.length
        else d.dataType.maxSize.getD p.content.length) p.content.length
      ∧ q = addResult p (p.content.take size) := by
  rw [domainCMP_results] at hq
  by_cases h : p.content.length < d.dataType.minSize
  · rw [if_pos h] at hq
    cases hq
  · rw [if_neg h] at hq
    rcases List.mem_map.1 hq with ⟨size, hmem, rfl⟩
    have hsz := mem_descRange.1 (List.mem_filter.1 hmem).1
    exact ⟨size, hsz.2, rfl⟩

theorem learn_memory (d : DataVar) (p : PPath) (carnivorous : Bool)
    (mem : Memory) :
    (learn d p carnivorous mem).2 =
      if p.content.length < d.dataType.minSize then mem
      else
        ((((descRange
            (min (if carnivorous then p.content.length
                  else d.dataType.maxSize.getD p.content.length) p.content.length)
            (if carnivorous then p.content.length else d.dataType.minSize)).filter
          fun size => size == 0 || d.dataType.canParse (p.content.take size)).map
          fun size => (some (p.content.take size) : Memory)).getLastD mem) := by
  unfold learn
  by_cases h : p.content.length < d.dataType.minSize
  · rw [if_pos h, if_pos h]
  · rw [if_neg h, if_neg h]
    dsimp only
    rw [learnLoop_memory]

/-- C4 counterexample: with the carnivorous flag set, a declared maximum of
1 bit and a residual of 2 bits, the call returns one successor recording
all 2 bits, exceeding the declared maximum size. -/
theorem C4_counterexample :
    ((domainCMP (freeData 0 (some 1)) (pathOn [true, true]) true none).1.map
        PPath.result = [some [true, true]])
    ∧ (freeData 0 (some 1)).dataType.maxSize = some 1 :=
  ⟨rfl, rfl⟩

/-- C4 amended: every successor of `domainCMP` or `learn` records a result
no longer than the residual content; and when the carnivorous flag is
unset it is also no longer than the declared maximum size (the carnivorous
collapse replaces the declared maximum by the residual length, so the
declared bound holds only for non-carnivorous calls). -/
theorem C4_amended_result_bounds (d : DataVar) (p : PPath) (carnivorous : Bool)
    (mem : Memory) (q : PPath)
    (hq : q ∈ (domainCMP d p carnivorous mem).1 ∨
          q ∈ (learn d p carnivorous mem).1)
    (r : Bits) (hr : q.result = some r) :
    r.length ≤ p.content.length ∧
      (carnivorous = false →
        ∀ m, d.dataType.maxSize = some m → r.length ≤ m) := by
  have hq2 : q ∈ (domainCMP d p carnivorous mem).1 := by
    rcases hq with h | h
    · exact h
    · rwa [learn_results_eq] at h
  rcases mem_domainCMP hq2 with ⟨size, hsize, rfl⟩
  simp only [addResult] at hr
  obtain rfl : r = p.content.take size := by
    injection hr with h
    exact h.symm
  constructor
  · rw [List.length_take]
    omega
  · rintro rfl m hm
    rw [hm] at hsize
    simp only [Bool.false_eq_true, if_false, Option.getD_some] at hsize
    rw [List.length_take]
    omega

/-- C4 amended witness at a concrete non-carnivorous call. -/
theorem C4_amended_result_bounds_witness :
    ([true] : Bits).length ≤ (pathOn [true]).content.length ∧
      (false = false → ∀ m, (freeData 0 (some 1)).dataType.maxSize = some m →
        ([true] : Bits).length ≤ m) :=
  C4_amended_result_bounds (freeData 0 (some 1)) (pathOn [true]) false none
    (addResult (pathOn [true]) [true]) (Or.inl (by decide)) [true] rfl

/-- C5 counterexample: a `learn` call accepting two candidate lengths (1
and 0) returns two successors recording different prefixes, while the
shared store ends holding only the last memorized prefix (the empty one);
the first returned path's result differs from the store's value. -/
theorem C5_counterexample :
    ((learn (freeData 0 none) (pathOn [true]) false none).1.map PPath.result =
        [some [true], some []])
    ∧ (learn (freeData 0 none) (pathOn [true]) false none).2 = some [] :=
  ⟨rfl, rfl⟩

/-- C5 amended: `learn` memorizes each accepted prefix in branch order into
the shared store, so after the call the store holds the result of the last
returned successor (hence the unique result when exactly one successor is
returned), and a call returning no successor leaves the store unchanged;
`regenerateAndMemorize` stores exactly the value recorded by its single
returned path. -/
theorem C5_amended_memorization (d : DataVar) (p : PPath) (carnivorous : Bool)
    (mem : Memory) (sp : SPath) :
    ((learn d p carnivorous mem).1 = [] → (learn d p carnivorous mem).2 = mem)
  ∧ (∀ q, (learn d p carnivorous mem).1.getLast? = some q →
        (learn d p carnivorous mem).2 = q.result)
  ∧ ((regenerateAndMemorize d sp mem).1.map SPath.result =
        [(regenerateAndMemorize d sp mem).2]) := by
  refine ⟨?_, ?_, rfl⟩
  · intro hnil
    rw [learn_results_eq, domainCMP_results] at hnil
    rw [learn_memory]
    by_cases h : p.content.length < d.dataType.minSize
    · rw [if_pos h]
    · rw [if_neg h] at hnil
      rw [if_neg h]
      rw [List.map_eq_nil_iff] at hnil
      rw [hnil]
      rfl
  · intro q hlast
    rw [learn_results_eq, domainCMP_results] at hlast
    rw [learn_memory]
    by_cases h : p.content.length < d.dataType.minSize
    · rw [if_pos h] at hlast
      cases hlast
    · rw [if_neg h] at hlast
      rw [if_neg h]
      rw [List.getLast?_map] at hlast
      rcases Option.map_eq_some'.1 hlast with ⟨sz, hsz, rfl⟩
      rw [List.getLastD_eq_getLast?, List.getLast?_map, hsz]
      rfl

/-- C5 amended witness: at the two-successor counterexample input, the
store ends holding the last returned successor's result. -/
theorem C5_amended_memorization_witness :
    (learn (freeData 0 none) (pathOn [true]) false none).2 =
      (addResult (pathOn [true]) []).result :=
  (C5_amended_memorization (freeData 0 none) (pathOn [true]) false none
      { result := none }).2.1 (addResult (pathOn [true]) []) (by decide)

/-- C6 counterexample: a `use` call on a field with no known value and an
empty store returns zero successors, not one. -/
theorem C6_counterexample :
    ((use (freeData 0 none) { result := none } none).1).length = 0 := rfl

/-- C6 amended: `regenerate` and `regenerateAndMemorize` always return
exactly one successor; `use` returns exactly one successor when the store
or the known value provides a value, and zero successors otherwise. -/
theorem C6_amended_successor_counts (d : DataVar) (p : SPath) (mem : Memory) :
    (regenerate d p mem).1.length = 1
  ∧ (regenerateAndMemorize d p mem).1.length = 1
  ∧ (use d p mem).1.length =
      (if mem.isSome || d.currentValue.isSome then 1 else 0) := by
  refine ⟨rfl, rfl, ?_⟩
  cases mem with
  | some v => rfl
  | none => cases hc : d.currentValue <;> simp [use, hc]

/-- C7: `use` returns one successor recording the store's value when the
store has an entry, else one successor recording the known value when
present, else no successor; it never writes to the store and its output
does not depend on the type's generator. -/
theorem C7_use_dispatch (d : DataVar) (p : SPath) (mem : Memory) :
    (use d p mem).2 = mem
  ∧ (∀ v, mem = some v → (use d p mem).1 = [addResultS p v])
  ∧ (mem = none → ∀ cv, d.currentValue = some cv →
        (use d p mem).1 = [addResultS p cv])
  ∧ (mem = none → d.currentValue = none → (use d p mem).1 = [])
  ∧ (∀ g, use { d with dataType := { d.dataType with generate := g } } p mem
        = use d p mem) := by
  refine ⟨?_, ?_, ?_, ?_, ?_⟩
  · cases mem with
    | some v => rfl
    | none => cases hc : d.currentValue <;> simp [use, hc]
  · rintro v rfl
    rfl
  · rintro rfl cv hc
    simp [use, hc]
  · rintro rfl hc
    simp [use, hc]
  · intro g
    cases mem with
    | some v => rfl
    | none => cases hc : d.currentValue <;> simp [use, hc]

/-- C7 witness: with a store entry present, `use` emits exactly that value. -/
theorem C7_use_dispatch_witness :
    (use (freeData 0 none) { result := none } (some [true])).1 =
      [addResultS { result := none } [true]] :=
  (C7_use_dispatch (freeData 0 none) { result := none } (some [true])).2.1
    [true] rfl

/-- C8: the Volatile-mode primitives `domainCMP` and `regenerate` never
write to the Binding Store: any sequence of such calls leaves the shared
store exactly as it was, so in particular a store with no entry for the
field before the sequence has none after. -/
theorem C8_volatile_never_writes (calls : List VolatileCall) (mem : Memory) :
    calls.foldl runVolatile mem = mem := by
  induction calls generalizing mem with
  | nil => rfl
  | cons c rest ih =>
    cases c with
    | parse d p carn =>
      rw [List.foldl_cons,
        show runVolatile mem (.parse d p carn) = mem from
          domainCMP_memory d p carn mem]
      exact ih mem
    | specialize d p =>
      rw [List.foldl_cons]
      exact ih mem

/-- C9 counterexample: with a known value present and a path that has no
store attached, `isDefined` returns true instead of raising. -/
theorem C9_counterexample :
    isDefined (fixedData [true]) (some none) = .ok true := rfl

/-- C9 amended: `isDefined` raises when the path is `None`; with a path
given it returns true when the known value is present (without consulting
the store, even when no store is attached), raises when the known value is
absent and no store is attached, and otherwise returns whether the store
has an entry for the field. -/
theorem C9_amended_isDefined (d : DataVar) (memOpt : Option Memory) :
    (∃ e, isDefined d none = .error e)
  ∧ (d.currentValue.isSome = true → isDefined d (some memOpt) = .ok true)
  ∧ (∀ mem, d.currentValue = none → memOpt = some mem →
        isDefined d (some memOpt) = .ok mem.isSome)
  ∧ (d.currentValue = none → memOpt = none →
        ∃ e, isDefined d (some memOpt) = .error e) := by
  refine ⟨⟨_, rfl⟩, ?_, ?_, ?_⟩
  · intro h
    simp [isDefined, h]
  · rintro mem hc rfl
    simp [isDefined, hc]
  · rintro hc rfl
    exact ⟨"Provided path has no memory attached.", by simp [isDefined, hc]⟩

/-- C9 amended witness: known value present, store attached with an entry. -/
theorem C9_amended_isDefined_witness :
    isDefined (fixedData [true]) (some (some (some [false]))) = .ok true :=
  (C9_amended_isDefined (fixedData [true]) (some (some [false]))).2.1 rfl

/-- C10: the minimum-size check precedes the carnivorous collapse: a
carnivorous call whose residual is shorter than the declared minimum size
returns the empty successor collection, from both `domainCMP` and `learn`. -/
theorem C10_min_check_before_carnivorous (d : DataVar) (p : PPath)
    (mem : Memory) (h : p.content.length < d.dataType.minSize) :
    (domainCMP d p true mem).1 = [] ∧ (learn d p true mem).1 = [] := by
  constructor
  · rw [domainCMP_results, if_pos h]
  · rw [learn_results_eq, domainCMP_results, if_pos h]

/-- C10 witness: a 2-bit minimum against a 1-bit residual, carnivorous. -/
theorem C10_min_check_before_carnivorous_witness :
    (domainCMP (freeData 2 none) (pathOn [true]) true none).1 = [] ∧
      (learn (freeData 2 none) (pathOn [true]) true none).1 = [] :=
  C10_min_check_before_carnivorous (freeData 2 none) (pathOn [true]) none
    (by decide)

end Netzob
